import Mathlib

/-!
Verification development for the LifeMaster health-API backend.

The JavaScript source is shallowly embedded: JavaScript numbers in the
claims' reach are modelled as rationals, nullable values as `Option`,
fallible external calls as `Except`, and the per-request handlers as
pure functions over oracles for the external collaborators (wearable
provider, progress store, reasoning engine).
-/

/-- Canonical per-day snapshot: each field nullable, mirroring the
`snapshot` object initialised in the `/health/daily` handler. -/
structure Snapshot where
  weight_kg : Option ℚ
  heart_pulse_bpm : Option ℚ
  spo2_pct : Option ℚ
  hrv : Option ℚ
  sleep_score : Option ℚ
  sleep_duration_minutes : Option ℚ
deriving DecidableEq

/-- JavaScript truthiness of a nullable number: `null`/`undefined` and `0`
are falsy, every other number is truthy. -/
def jsTruthy : Option ℚ → Bool
  | none => false
  | some x => decide (x ≠ 0)

/-- `changes.weight` from the significant-change check:
`snapshot.weight_kg && lastMetrics.weight_kg ? Math.abs(diff) : 0`. -/
def changeWeight (snap last : Snapshot) : ℚ :=
  if jsTruthy snap.weight_kg && jsTruthy last.weight_kg then
    |snap.weight_kg.getD 0 - last.weight_kg.getD 0|
  else 0

/-- `changes.rhr`: absolute resting-heart-rate delta under the same
truthiness guard. -/
def changeRhr (snap last : Snapshot) : ℚ :=
  if jsTruthy snap.heart_pulse_bpm && jsTruthy last.heart_pulse_bpm then
    |snap.heart_pulse_bpm.getD 0 - last.heart_pulse_bpm.getD 0|
  else 0

/-- `changes.hrv`: percentage HRV delta relative to the prior value,
`Math.abs((snapshot.hrv - lastMetrics.hrv) / lastMetrics.hrv * 100)`. -/
def changeHrv (snap last : Snapshot) : ℚ :=
  if jsTruthy snap.hrv && jsTruthy last.hrv then
    |(snap.hrv.getD 0 - last.hrv.getD 0) / last.hrv.getD 0 * 100|
  else 0

/-- `changes.sleep`: absolute sleep-duration delta in minutes under the
truthiness guard. -/
def changeSleep (snap last : Snapshot) : ℚ :=
  if jsTruthy snap.sleep_duration_minutes && jsTruthy last.sleep_duration_minutes then
    |snap.sleep_duration_minutes.getD 0 - last.sleep_duration_minutes.getD 0|
  else 0

/-- The four deltas bundled, as in the `changes` object of the handler. -/
structure Changes where
  weight : ℚ
  rhr : ℚ
  hrv : ℚ
  sleep : ℚ
deriving DecidableEq

/-- Builds the `changes` object of the `/health/daily` agent-trigger block. -/
def changesOf (snap last : Snapshot) : Changes :=
  ⟨changeWeight snap last, changeRhr snap last, changeHrv snap last, changeSleep snap last⟩

/-- `shouldTriggerAgent` from the `/health/daily` handler: cold start
(no prior measurement entry) triggers; otherwise any threshold crossing
(weight 0.5 kg, RHR 5 bpm, HRV 10 percent, sleep 60 min) triggers. -/
def shouldTriggerAgent (prior : Option Snapshot) (snap : Snapshot) : Bool :=
  match prior with
  | none => true
  | some last =>
    let c := changesOf snap last
    decide (c.weight ≥ 0.5) || decide (c.rhr ≥ 5) || decide (c.hrv ≥ 10) ||
      decide (c.sleep ≥ 60)

/-- Delta as the specification's words describe it: zero when either side
is null, otherwise the absolute difference. -/
def specDelta (a b : Option ℚ) : ℚ :=
  match a, b with
  | some x, some y => |x - y|
  | _, _ => 0

/-- HRV percentage delta as the specification's words describe it: zero
when either side is null, otherwise the percentage change relative to the
prior value. -/
def specDeltaHrvPct (a b : Option ℚ) : ℚ :=
  match a, b with
  | some x, some y => |(x - y) / y * 100|
  | _, _ => 0

/-- The trigger condition exactly as claim C1 states it, with deltas zero
only on null (not on zero values). -/
def claimTrigger (prior : Option Snapshot) (snap : Snapshot) : Bool :=
  match prior with
  | none => true
  | some last =>
    decide (specDelta snap.weight_kg last.weight_kg ≥ 0.5) ||
    decide (specDelta snap.heart_pulse_bpm last.heart_pulse_bpm ≥ 5) ||
    decide (specDeltaHrvPct snap.hrv last.hrv ≥ 10) ||
    decide (specDelta snap.sleep_duration_minutes last.sleep_duration_minutes ≥ 60)

/-- An all-null snapshot except for weight. -/
def weightOnlySnap (w : Option ℚ) : Snapshot :=
  ⟨w, none, none, none, none, none⟩

/-- One raw measure inside a provider measurement group: integer `value`
and power-of-ten exponent `unit`, plus the `type` tag. -/
structure RawMeasure where
  type : Nat
  value : Int
  unit : Int
deriving DecidableEq

/-- One provider measurement group: a group timestamp `date` (epoch
seconds) and its list of measures. -/
structure MeasureGroup where
  date : Int
  measures : List RawMeasure
deriving DecidableEq

/-- `Math.pow(10, unit)` for an integer exponent, over the rationals. -/
def pow10 : Int → ℚ
  | .ofNat n => (10 : ℚ) ^ n
  | .negSucc n => ((10 : ℚ) ^ (n + 1))⁻¹

/-- `measure.value * Math.pow(10, measure.unit)` from the handler. -/
def actualValue (v u : Int) : ℚ := (v : ℚ) * pow10 u

theorem pow10_eq_zpow (u : Int) : pow10 u = (10 : ℚ) ^ u := by
  cases u with
  | ofNat n => simp [pow10]
  | negSucc n => simp [pow10, zpow_negSucc]

/-- The record stored in `latestValues[meastype]`: the normalized value,
the group timestamp, and the raw fields kept for audit. -/
structure Retained where
  value : ℚ
  ts : Int
  rawType : Nat
  rawValue : Int
  rawUnit : Int
deriving DecidableEq

/-- Builds the `latestValues` record for one raw measure. -/
def mkRetained (d : Int) (m : RawMeasure) : Retained :=
  ⟨actualValue m.value m.unit, d, m.type, m.value, m.unit⟩

/-- One update of the `latestValues` map. The source intends to keep
the latest value per meastype, but its guard reads
`grp.date > latestValues[meastype].date`, and the stored record has no
top-level `date` field (only `value`, `ts` and `raw`): the comparison is
against `undefined`, which is always false in JavaScript. An existing
entry is therefore NEVER replaced — only the absent-entry branch ever
stores a reading. -/
def updLatest (acc : Nat → Option Retained) (d : Int) (m : RawMeasure) :
    Nat → Option Retained :=
  fun t =>
    if t = m.type then
      match acc m.type with
      | none => some (mkRetained d m)
      | some e => some e
    else acc t

/-- `latestValues` from the `/health/daily` handler: the nested loop over
measurement groups and their measures. -/
def latestValues (grps : List MeasureGroup) : Nat → Option Retained :=
  grps.foldl (fun acc g => g.measures.foldl (fun a m => updLatest a g.date m) acc)
    (fun _ => none)

/-- All raw readings in encounter order, paired with their group date. -/
def readings (grps : List MeasureGroup) : List (Int × RawMeasure) :=
  grps.flatMap (fun g => g.measures.map (fun m => (g.date, m)))

/-- The readings of one metric type, in encounter order, as retained
records. -/
def typeReadings (t : Nat) (grps : List MeasureGroup) : List Retained :=
  (readings grps).filterMap
    (fun p => if p.2.type = t then some (mkRetained p.1 p.2) else none)

/-- One step of the per-type retention fold as the code actually runs:
the first stored record is kept, every later candidate is discarded. -/
def stepKeep (cur : Option Retained) (e : Retained) : Option Retained :=
  match cur with
  | none => some e
  | some c => some c

/-- Last-encountered maximal-timestamp selector: the retention policy
the claim (and the code's own comment) describe — the reading with the
maximal group timestamp survives, a later reading with an equal
timestamp replacing the best. -/
def lastMaxRet : List Retained → Option Retained
  | [] => none
  | x :: xs =>
    match lastMaxRet xs with
    | none => some x
    | some y => if y.ts ≥ x.ts then some y else some x

theorem foldl_nested_eq (grps : List MeasureGroup) (acc : Nat → Option Retained) :
    grps.foldl (fun a g => g.measures.foldl (fun b m => updLatest b g.date m) a) acc
      = (readings grps).foldl (fun a p => updLatest a p.1 p.2) acc := by
  induction grps generalizing acc with
  | nil => rfl
  | cons g gs ih =>
    rw [List.foldl_cons, ih]
    simp [readings, List.foldl_append, List.foldl_map]

theorem foldl_updLatest_at (l : List (Int × RawMeasure)) (t : Nat) :
    ∀ acc : Nat → Option Retained,
      (l.foldl (fun a p => updLatest a p.1 p.2) acc) t
        = (l.filterMap
            (fun p => if p.2.type = t then some (mkRetained p.1 p.2) else none)).foldl
            stepKeep (acc t) := by
  induction l with
  | nil => intro acc; rfl
  | cons p ps ih =>
    intro acc
    rw [List.foldl_cons, ih]
    by_cases h : p.2.type = t
    · subst h
      have hupd : (updLatest acc p.1 p.2) p.2.type
          = stepKeep (acc p.2.type) (mkRetained p.1 p.2) := by
        simp [updLatest, stepKeep]
      rw [hupd]
      simp [List.filterMap_cons]
    · have hupd : (updLatest acc p.1 p.2) t = acc t := by
        simp only [updLatest]
        rw [if_neg (fun he => h he.symm)]
      rw [hupd]
      simp [List.filterMap_cons, h]

theorem foldl_stepKeep_some (l : List Retained) (c : Retained) :
    l.foldl stepKeep (some c) = some c := by
  induction l with
  | nil => rfl
  | cons x xs ih => rw [List.foldl_cons]; exact ih

/-- The retention the code actually implements: per metric type, the
FIRST reading encountered is kept, regardless of any later reading's
timestamp. -/
theorem latestValues_eq_head (grps : List MeasureGroup) (t : Nat) :
    latestValues grps t = (typeReadings t grps).head? := by
  have h1 : latestValues grps t = (typeReadings t grps).foldl stepKeep none := by
    rw [latestValues, foldl_nested_eq, foldl_updLatest_at]
    rfl
  rw [h1]
  cases hl : typeReadings t grps with
  | nil => rfl
  | cons x xs =>
    rw [List.foldl_cons]
    exact foldl_stepKeep_some xs x

/-- C1 counterexample: with a prior weight of 70 kg and a new snapshot
whose weight is the (non-null) number 0, the claimed trigger condition is
true (delta 70 kg crosses the 0.5 kg threshold) but the code does not
trigger, because JavaScript truthiness treats the value 0 like missing
data. The claimed if-and-only-if therefore fails. -/
theorem change_detector_claim_counterexample :
    shouldTriggerAgent (some (weightOnlySnap (some 70))) (weightOnlySnap (some 0)) = false ∧
    claimTrigger (some (weightOnlySnap (some 70))) (weightOnlySnap (some 0)) = true ∧
    ¬ (shouldTriggerAgent (some (weightOnlySnap (some 70))) (weightOnlySnap (some 0)) = true ↔
       claimTrigger (some (weightOnlySnap (some 70))) (weightOnlySnap (some 0)) = true) := by
  have h1 : shouldTriggerAgent (some (weightOnlySnap (some 70))) (weightOnlySnap (some 0)) = false := by
    norm_num [shouldTriggerAgent, changesOf, changeWeight, changeRhr, changeHrv, changeSleep,
      jsTruthy, weightOnlySnap]
  have h2 : claimTrigger (some (weightOnlySnap (some 70))) (weightOnlySnap (some 0)) = true := by
    norm_num [claimTrigger, specDelta, specDeltaHrvPct, weightOnlySnap]
  refine ⟨h1, h2, fun h => ?_⟩
  rw [h1, h2] at h
  exact absurd (h.mpr rfl) (by simp)

/-- One row of the fixed `typeMapping` table of the handler. -/
structure TypeMap where
  key : String
  snapshotKey : Option String
  unitLabel : String
deriving DecidableEq

/-- The fixed meastype to (key, snapshotKey, unit) table. -/
def typeMapping : Nat → Option TypeMap
  | 1 => some ⟨"weight_kg", some "weight_kg", "kg"⟩
  | 11 => some ⟨"heart_pulse_bpm", some "heart_pulse_bpm", "bpm"⟩
  | 54 => some ⟨"spo2_pct", some "spo2_pct", "%"⟩
  | 62 => some ⟨"hrv_ms", some "hrv", "ms"⟩
  | 9 => some ⟨"diastolic_mmhg", none, "mmHg"⟩
  | 10 => some ⟨"systolic_mmhg", none, "mmHg"⟩
  | _ => none

/-- A measurement data point pushed into `dataPoints`, with the raw
fields retained for audit. -/
structure MeasDataPoint where
  key : String
  value : ℚ
  unitLabel : String
  ts : Int
  source : String
  rawType : Nat
  rawValue : Int
  rawUnit : Int
deriving DecidableEq

/-- The data point emitted for one meastype, when the type has a mapping
and a retained reading exists. -/
def dataPointFor (grps : List MeasureGroup) (t : Nat) : Option MeasDataPoint :=
  match typeMapping t with
  | none => none
  | some mp =>
    (latestValues grps t).map (fun e =>
      ⟨mp.key, e.value, mp.unitLabel, e.ts, "withings", e.rawType, e.rawValue, e.rawUnit⟩)

/-- Insertion into an ascending list of meastype keys. -/
def insertAsc (n : Nat) : List Nat → List Nat
  | [] => [n]
  | m :: ms => if n ≤ m then n :: m :: ms else m :: insertAsc n ms

/-- Ascending sort of meastype keys, modelling the ascending integer-key
iteration order of `Object.entries(latestValues)`. -/
def sortAsc (l : List Nat) : List Nat := l.foldr insertAsc []

/-- The distinct meastypes present in the response, ascending. -/
def presentTypes (grps : List MeasureGroup) : List Nat :=
  sortAsc (((readings grps).map (fun p => p.2.type)).dedup)

/-- All measurement data points pushed by the `Object.entries` loop. -/
def measDataPoints (grps : List MeasureGroup) : List MeasDataPoint :=
  (presentTypes grps).filterMap (dataPointFor grps)

/-- The snapshot slots filled from the retained measurement readings
(meastypes 1, 11, 54, 62; blood pressure has no snapshot slot). -/
def measSnapshot (grps : List MeasureGroup) : Snapshot :=
  { weight_kg := (latestValues grps 1).map Retained.value
    heart_pulse_bpm := (latestValues grps 11).map Retained.value
    spo2_pct := (latestValues grps 54).map Retained.value
    hrv := (latestValues grps 62).map Retained.value
    sleep_score := none
    sleep_duration_minutes := none }

theorem pow10_zero : pow10 0 = 1 := by
  have h : pow10 0 = (10 : ℚ) ^ (0 : ℕ) := rfl
  rw [h, pow_zero]

/-- Two weight readings with strictly increasing group timestamps: the
second reading is the newer one the claim says must survive. -/
def grpsAsc : List MeasureGroup := [⟨100, [⟨1, 700, 0⟩]⟩, ⟨200, [⟨1, 705, 0⟩]⟩]

/-- C3 code-bug demonstration: the source's guard compares `grp.date`
against `latestValues[meastype].date`, a field the stored record never
has (it stores the timestamp as `ts`), so the comparison is against
`undefined` and is always false — an existing entry is never replaced
and the FIRST reading per metric type wins regardless of timestamp. At
the failing input (weight 700 at ts 100, then weight 705 at ts 200) the
code retains 700, while the claimed — and the code comment's intended —
maximal-timestamp retention keeps 705. -/
theorem lww_retention_bug :
    (latestValues grpsAsc 1).map Retained.value = some 700 ∧
    (lastMaxRet (typeReadings 1 grpsAsc)).map Retained.value = some 705 ∧
    latestValues grpsAsc 1 ≠ lastMaxRet (typeReadings 1 grpsAsc) := by
  have htr : typeReadings 1 grpsAsc
      = [mkRetained 100 ⟨1, 700, 0⟩, mkRetained 200 ⟨1, 705, 0⟩] := by
    simp [typeReadings, readings, grpsAsc, List.filterMap]
  have h1 : latestValues grpsAsc 1 = some (mkRetained 100 ⟨1, 700, 0⟩) := by
    rw [latestValues_eq_head, htr]
    rfl
  have h2 : lastMaxRet (typeReadings 1 grpsAsc) = some (mkRetained 200 ⟨1, 705, 0⟩) := by
    rw [htr]
    norm_num [lastMaxRet, mkRetained]
  refine ⟨?_, ?_, ?_⟩
  · rw [h1]
    norm_num [mkRetained, actualValue, pow10_zero]
  · rw [h2]
    norm_num [mkRetained, actualValue, pow10_zero]
  · rw [h1, h2]
    intro h
    injection h with h
    have hv : (700 : Int) = 705 := congrArg Retained.rawValue h
    omega

/-- C8: every retained reading's normalized value equals its raw integer
value times ten to the raw exponent, the retained record comes from an
actual reading of the input, and every emitted data point satisfies the
same decoding equation on its own raw audit fields. -/
theorem unit_decoding (grps : List MeasureGroup) (t : Nat) (e : Retained)
    (h : latestValues grps t = some e) :
    e.value = (e.rawValue : ℚ) * (10 : ℚ) ^ e.rawUnit ∧
    (∃ p ∈ readings grps, p.2.type = t ∧ e = mkRetained p.1 p.2) ∧
    (∀ dp, dataPointFor grps t = some dp →
      dp.value = (dp.rawValue : ℚ) * (10 : ℚ) ^ dp.rawUnit) := by
  have hf : (typeReadings t grps).head? = some e := by
    rw [← latestValues_eq_head]
    exact h
  have hmem : e ∈ typeReadings t grps := by
    cases hl : typeReadings t grps with
    | nil => rw [hl] at hf; exact absurd hf (by simp)
    | cons x xs =>
      rw [hl] at hf
      injection hf with hf
      rw [← hf]
      exact List.mem_cons_self x xs
  rw [typeReadings, List.mem_filterMap] at hmem
  obtain ⟨p, hp, hpe⟩ := hmem
  by_cases hT : p.2.type = t
  · rw [if_pos hT] at hpe
    injection hpe with hpe
    have hv : e.value = (e.rawValue : ℚ) * (10 : ℚ) ^ e.rawUnit := by
      rw [← hpe]
      simp [mkRetained, actualValue, pow10_eq_zpow]
    refine ⟨hv, ⟨p, hp, hT, hpe.symm⟩, ?_⟩
    intro dp hdp
    unfold dataPointFor at hdp
    cases hmp : typeMapping t with
    | none => rw [hmp] at hdp; exact absurd hdp (by simp)
    | some mp =>
      rw [hmp, h] at hdp
      simp only [Option.map_some'] at hdp
      injection hdp with hdp
      rw [← hdp]
      exact hv
  · rw [if_neg hT] at hpe
    exact absurd hpe (by simp)

/-- A single decigram-exponent weight reading. -/
def grpsDec : List MeasureGroup := [⟨50, [⟨1, 705, -1⟩]⟩]

/-- The retained record for that reading. -/
def eDec : Retained := mkRetained 50 ⟨1, 705, -1⟩

/-- C8 witness: the decoding theorem instantiated at a concrete reading
with a negative power-of-ten exponent. -/
theorem unit_decoding_witness :
    latestValues grpsDec 1 = some eDec ∧
    eDec.value = (eDec.rawValue : ℚ) * (10 : ℚ) ^ eDec.rawUnit := by
  have h : latestValues grpsDec 1 = some eDec := by
    rw [latestValues_eq_head]
    have htr : typeReadings 1 grpsDec = [eDec] := by
      simp [typeReadings, readings, grpsDec, eDec, List.filterMap]
    rw [htr]
    rfl
  exact ⟨h, (unit_decoding grpsDec 1 eDec h).1⟩

/-- Guarded absolute-delta threshold, unfolded to explicit conditions. -/
theorem absDeltaGuard (a b : Option ℚ) (θ : ℚ) (hθ : 0 < θ) :
    θ ≤ (if jsTruthy a && jsTruthy b then |a.getD 0 - b.getD 0| else 0) ↔
      ∃ x y, a = some x ∧ b = some y ∧ x ≠ 0 ∧ y ≠ 0 ∧ θ ≤ |x - y| := by
  cases a with
  | none => simp [jsTruthy]; linarith
  | some x =>
    cases b with
    | none => simp [jsTruthy]; linarith
    | some y =>
      by_cases hx : x = 0
      · subst hx
        simp [jsTruthy]
        linarith
      · by_cases hy : y = 0
        · subst hy
          simp [jsTruthy, hx]
          linarith
        · simp [jsTruthy, hx, hy]

/-- Guarded HRV-percentage threshold, unfolded to explicit conditions. -/
theorem hrvDeltaGuard (a b : Option ℚ) (θ : ℚ) (hθ : 0 < θ) :
    θ ≤ (if jsTruthy a && jsTruthy b then |(a.getD 0 - b.getD 0) / b.getD 0 * 100| else 0) ↔
      ∃ x y, a = some x ∧ b = some y ∧ x ≠ 0 ∧ y ≠ 0 ∧ θ ≤ |(x - y) / y * 100| := by
  cases a with
  | none => simp [jsTruthy]; linarith
  | some x =>
    cases b with
    | none => simp [jsTruthy]; linarith
    | some y =>
      by_cases hx : x = 0
      · subst hx
        simp [jsTruthy]
        linarith
      · by_cases hy : y = 0
        · subst hy
          simp [jsTruthy, hx]
          linarith
        · simp [jsTruthy, hx, hy]

/-- C1 (amended): the agent-analysis trigger is true if and only if no
prior measurement entry exists, or a threshold is crossed by a metric
whose two sides are both present AND nonzero — JavaScript falsiness makes
the value 0 behave like missing data, so a delta is zero whenever either
side is null or zero. -/
theorem change_detector_trigger_iff (prior : Option Snapshot) (snap : Snapshot) :
    shouldTriggerAgent prior snap = true ↔
      prior = none ∨
        ∃ last, prior = some last ∧
          ((∃ x y, snap.weight_kg = some x ∧ last.weight_kg = some y ∧
              x ≠ 0 ∧ y ≠ 0 ∧ (0.5 : ℚ) ≤ |x - y|) ∨
           (∃ x y, snap.heart_pulse_bpm = some x ∧ last.heart_pulse_bpm = some y ∧
              x ≠ 0 ∧ y ≠ 0 ∧ (5 : ℚ) ≤ |x - y|) ∨
           (∃ x y, snap.hrv = some x ∧ last.hrv = some y ∧
              x ≠ 0 ∧ y ≠ 0 ∧ (10 : ℚ) ≤ |(x - y) / y * 100|) ∨
           (∃ x y, snap.sleep_duration_minutes = some x ∧
              last.sleep_duration_minutes = some y ∧
              x ≠ 0 ∧ y ≠ 0 ∧ (60 : ℚ) ≤ |x - y|)) := by
  cases prior with
  | none => simp [shouldTriggerAgent]
  | some last =>
    simp only [shouldTriggerAgent, changesOf]
    constructor
    · intro h
      right
      refine ⟨last, rfl, ?_⟩
      simp only [Bool.or_eq_true, decide_eq_true_eq] at h
      rcases h with ((h | h) | h) | h
      · exact Or.inl ((absDeltaGuard _ _ _ (by norm_num)).mp h)
      · exact Or.inr (Or.inl ((absDeltaGuard _ _ _ (by norm_num)).mp h))
      · exact Or.inr (Or.inr (Or.inl ((hrvDeltaGuard _ _ _ (by norm_num)).mp h)))
      · exact Or.inr (Or.inr (Or.inr ((absDeltaGuard _ _ _ (by norm_num)).mp h)))
    · rintro (h | ⟨l, hl, h⟩)
      · exact absurd h (by simp)
      · injection hl with hl
        subst hl
        simp only [Bool.or_eq_true, decide_eq_true_eq]
        rcases h with h | h | h | h
        · exact Or.inl (Or.inl (Or.inl ((absDeltaGuard _ _ _ (by norm_num)).mpr h)))
        · exact Or.inl (Or.inl (Or.inr ((absDeltaGuard _ _ _ (by norm_num)).mpr h)))
        · exact Or.inl (Or.inr ((hrvDeltaGuard _ _ _ (by norm_num)).mpr h))
        · exact Or.inr ((absDeltaGuard _ _ _ (by norm_num)).mpr h)


/-- Per-session sleep summary payload fields used by the handler. -/
structure SleepData where
  sleep_score : Option ℚ
  total_sleep_time : Option ℚ
  total_timeinbed : Option ℚ
deriving DecidableEq

/-- One sleep session of the provider's summary response. -/
structure SleepSession where
  startdate : Int
  enddate : Int
  data : Option SleepData
deriving DecidableEq

/-- The overlap of a session with the day window, in seconds:
`max(0, min(session.end, windowEnd) - max(session.start, windowStart))`. -/
def overlapOf (startTs endTs : Int) (s : SleepSession) : Int :=
  max 0 (min s.enddate endTs - max s.startdate startTs)

/-- One step of the `bestSleep`/`maxOverlap` loop: the best session is
replaced only when a session's overlap is strictly greater than the
running maximum. -/
def stepBS (a b : Int) (acc : Option SleepSession × Int) (s : SleepSession) :
    Option SleepSession × Int :=
  if overlapOf a b s > acc.2 then (some s, overlapOf a b s) else acc

/-- The `bestSleep` loop of the handler, starting from no best session
and a running maximum of 0. -/
def bestSleepFold (a b : Int) (l : List SleepSession) :
    Option SleepSession × Int :=
  l.foldl (stepBS a b) (none, 0)

/-- The selected best sleep session (or none). -/
def bestSleep (a b : Int) (l : List SleepSession) : Option SleepSession :=
  (bestSleepFold a b l).1

/-- Structural characterization of the selection: first session with the
maximal positive overlap. -/
def bestSleepRec (a b : Int) : List SleepSession → Option SleepSession
  | [] => none
  | s :: rest =>
    match bestSleepRec a b rest with
    | none => if overlapOf a b s > 0 then some s else none
    | some t =>
      if overlapOf a b t > overlapOf a b s then some t
      else if overlapOf a b s > 0 then some s else none

theorem overlapOf_nonneg (a b : Int) (s : SleepSession) : 0 ≤ overlapOf a b s :=
  le_max_left 0 _

theorem bestSleepRec_pos (a b : Int) (l : List SleepSession) :
    ∀ e, bestSleepRec a b l = some e → 0 < overlapOf a b e := by
  induction l with
  | nil => intro e h; exact absurd h (by simp [bestSleepRec])
  | cons s rest ih =>
    intro e h
    simp only [bestSleepRec] at h
    cases hm : bestSleepRec a b rest with
    | none =>
      rw [hm] at h
      have h' : (if overlapOf a b s > 0 then some s else none) = some e := h
      by_cases hs : overlapOf a b s > 0
      · rw [if_pos hs] at h'
        injection h' with h'
        rw [← h']
        exact hs
      · rw [if_neg hs] at h'
        exact absurd h' (by simp)
    | some t =>
      rw [hm] at h
      have h' : (if overlapOf a b t > overlapOf a b s then some t
          else if overlapOf a b s > 0 then some s else none) = some e := h
      by_cases ht : overlapOf a b t > overlapOf a b s
      · rw [if_pos ht] at h'
        injection h' with h'
        rw [← h']
        exact ih t hm
      · rw [if_neg ht] at h'
        by_cases hs : overlapOf a b s > 0
        · rw [if_pos hs] at h'
          injection h' with h'
          rw [← h']
          exact hs
        · rw [if_neg hs] at h'
          exact absurd h' (by simp)

theorem bestSleepRec_none (a b : Int) (l : List SleepSession) :
    bestSleepRec a b l = none → ∀ x ∈ l, overlapOf a b x = 0 := by
  induction l with
  | nil => intro _ x hx; exact absurd hx (List.not_mem_nil x)
  | cons s rest ih =>
    intro h x hx
    simp only [bestSleepRec] at h
    cases hm : bestSleepRec a b rest with
    | none =>
      rw [hm] at h
      have h' : (if overlapOf a b s > 0 then some s else none) = none := h
      by_cases hs : overlapOf a b s > 0
      · rw [if_pos hs] at h'
        exact absurd h' (by simp)
      · rcases List.mem_cons.mp hx with hx | hx
        · subst hx
          have := overlapOf_nonneg a b x
          omega
        · exact ih hm x hx
    | some t =>
      rw [hm] at h
      have h' : (if overlapOf a b t > overlapOf a b s then some t
          else if overlapOf a b s > 0 then some s else none) = none := h
      have hpos := bestSleepRec_pos a b rest t hm
      by_cases ht : overlapOf a b t > overlapOf a b s
      · rw [if_pos ht] at h'
        exact absurd h' (by simp)
      · rw [if_neg ht] at h'
        by_cases hs : overlapOf a b s > 0
        · rw [if_pos hs] at h'
          exact absurd h' (by simp)
        · omega

theorem bestSleepRec_mem (a b : Int) (l : List SleepSession) :
    ∀ e, bestSleepRec a b l = some e → e ∈ l := by
  induction l with
  | nil => intro e h; exact absurd h (by simp [bestSleepRec])
  | cons s rest ih =>
    intro e h
    simp only [bestSleepRec] at h
    cases hm : bestSleepRec a b rest with
    | none =>
      rw [hm] at h
      have h' : (if overlapOf a b s > 0 then some s else none) = some e := h
      by_cases hs : overlapOf a b s > 0
      · rw [if_pos hs] at h'
        injection h' with h'
        exact h' ▸ List.mem_cons_self s rest
      · rw [if_neg hs] at h'
        exact absurd h' (by simp)
    | some t =>
      rw [hm] at h
      have h' : (if overlapOf a b t > overlapOf a b s then some t
          else if overlapOf a b s > 0 then some s else none) = some e := h
      by_cases ht : overlapOf a b t > overlapOf a b s
      · rw [if_pos ht] at h'
        injection h' with h'
        rw [h'] at hm
        exact List.mem_cons_of_mem s (ih e hm)
      · rw [if_neg ht] at h'
        by_cases hs : overlapOf a b s > 0
        · rw [if_pos hs] at h'
          injection h' with h'
          exact h' ▸ List.mem_cons_self s rest
        · rw [if_neg hs] at h'
          exact absurd h' (by simp)

theorem bestSleepRec_max (a b : Int) (l : List SleepSession) :
    ∀ e, bestSleepRec a b l = some e →
      ∀ x ∈ l, overlapOf a b x ≤ overlapOf a b e := by
  induction l with
  | nil => intro e h; exact absurd h (by simp [bestSleepRec])
  | cons s rest ih =>
    intro e h
    simp only [bestSleepRec] at h
    cases hm : bestSleepRec a b rest with
    | none =>
      rw [hm] at h
      have h' : (if overlapOf a b s > 0 then some s else none) = some e := h
      by_cases hs : overlapOf a b s > 0
      · rw [if_pos hs] at h'
        injection h' with h'
        intro z hz
        rcases List.mem_cons.mp hz with hz | hz
        · exact le_of_eq (by rw [hz, h'])
        · have hz0 := bestSleepRec_none a b rest hm z hz
          have hse : overlapOf a b s = overlapOf a b e := by rw [h']
          omega
      · rw [if_neg hs] at h'
        exact absurd h' (by simp)
    | some t =>
      rw [hm] at h
      have h' : (if overlapOf a b t > overlapOf a b s then some t
          else if overlapOf a b s > 0 then some s else none) = some e := h
      by_cases ht : overlapOf a b t > overlapOf a b s
      · rw [if_pos ht] at h'
        injection h' with h'
        rw [h'] at hm ht
        intro z hz
        rcases List.mem_cons.mp hz with hz | hz
        · subst hz; omega
        · exact ih e hm z hz
      · rw [if_neg ht] at h'
        by_cases hs : overlapOf a b s > 0
        · rw [if_pos hs] at h'
          injection h' with h'
          intro z hz
          rcases List.mem_cons.mp hz with hz | hz
          · exact le_of_eq (by rw [hz, h'])
          · have hzt := ih t hm z hz
            have hse : overlapOf a b s = overlapOf a b e := by rw [h']
            omega
        · rw [if_neg hs] at h'
          exact absurd h' (by simp)

theorem bestSleepRec_first (a b : Int) (l : List SleepSession) :
    ∀ e, bestSleepRec a b l = some e →
      l.find? (fun x => overlapOf a b x == overlapOf a b e) = some e := by
  induction l with
  | nil => intro e h; exact absurd h (by simp [bestSleepRec])
  | cons s rest ih =>
    intro e h
    simp only [bestSleepRec] at h
    cases hm : bestSleepRec a b rest with
    | none =>
      rw [hm] at h
      have h' : (if overlapOf a b s > 0 then some s else none) = some e := h
      by_cases hs : overlapOf a b s > 0
      · rw [if_pos hs] at h'
        injection h' with h'
        rw [List.find?_cons]
        have heq : (overlapOf a b s == overlapOf a b e) = true := by
          simp only [beq_iff_eq]
          rw [h']
        rw [heq, h']
      · rw [if_neg hs] at h'
        exact absurd h' (by simp)
    | some t =>
      rw [hm] at h
      have h' : (if overlapOf a b t > overlapOf a b s then some t
          else if overlapOf a b s > 0 then some s else none) = some e := h
      by_cases ht : overlapOf a b t > overlapOf a b s
      · rw [if_pos ht] at h'
        injection h' with h'
        rw [h'] at hm ht
        rw [List.find?_cons]
        have hne : (overlapOf a b s == overlapOf a b e) = false := by
          simp only [beq_eq_false_iff_ne, ne_eq]
          omega
        rw [hne]
        exact ih e hm
      · rw [if_neg ht] at h'
        by_cases hs : overlapOf a b s > 0
        · rw [if_pos hs] at h'
          injection h' with h'
          rw [List.find?_cons]
          have heq : (overlapOf a b s == overlapOf a b e) = true := by
            simp only [beq_iff_eq]
            rw [h']
          rw [heq, h']
        · rw [if_neg hs] at h'
          exact absurd h' (by simp)

theorem foldl_stepBS_some (a b : Int) (l : List SleepSession) :
    ∀ c, l.foldl (stepBS a b) (some c, overlapOf a b c)
      = match bestSleepRec a b l with
        | none => (some c, overlapOf a b c)
        | some t =>
          if overlapOf a b t > overlapOf a b c then (some t, overlapOf a b t)
          else (some c, overlapOf a b c) := by
  induction l with
  | nil => intro c; rfl
  | cons s rest ih =>
    intro c
    rw [List.foldl_cons]
    show rest.foldl (stepBS a b)
        (if overlapOf a b s > overlapOf a b c then (some s, overlapOf a b s)
         else (some c, overlapOf a b c)) = _
    by_cases hsc : overlapOf a b s > overlapOf a b c
    · rw [if_pos hsc, ih s]
      cases hm : bestSleepRec a b rest with
      | none =>
        have hrec : bestSleepRec a b (s :: rest) = some s := by
          have hs : overlapOf a b s > 0 := by
            have := overlapOf_nonneg a b c
            omega
          simp [bestSleepRec, hm, hs]
        rw [hrec]
        show (some s, overlapOf a b s)
          = if overlapOf a b s > overlapOf a b c then (some s, overlapOf a b s)
            else (some c, overlapOf a b c)
        rw [if_pos hsc]
      | some t =>
        by_cases ht : overlapOf a b t > overlapOf a b s
        · have hrec : bestSleepRec a b (s :: rest) = some t := by
            simp [bestSleepRec, hm, ht]
          rw [hrec]
          show (if overlapOf a b t > overlapOf a b s then (some t, overlapOf a b t)
              else (some s, overlapOf a b s))
            = if overlapOf a b t > overlapOf a b c then (some t, overlapOf a b t)
              else (some c, overlapOf a b c)
          rw [if_pos ht, if_pos (show overlapOf a b t > overlapOf a b c by omega)]
        · have hs : overlapOf a b s > 0 := by
            have := overlapOf_nonneg a b c
            omega
          have hrec : bestSleepRec a b (s :: rest) = some s := by
            simp [bestSleepRec, hm, ht, hs]
          rw [hrec]
          show (if overlapOf a b t > overlapOf a b s then (some t, overlapOf a b t)
              else (some s, overlapOf a b s))
            = if overlapOf a b s > overlapOf a b c then (some s, overlapOf a b s)
              else (some c, overlapOf a b c)
          rw [if_neg ht, if_pos hsc]
    · rw [if_neg hsc, ih c]
      cases hm : bestSleepRec a b rest with
      | none =>
        by_cases hs : overlapOf a b s > 0
        · have hrec : bestSleepRec a b (s :: rest) = some s := by
            simp [bestSleepRec, hm, hs]
          rw [hrec]
          show (some c, overlapOf a b c)
            = if overlapOf a b s > overlapOf a b c then (some s, overlapOf a b s)
              else (some c, overlapOf a b c)
          rw [if_neg hsc]
        · have hrec : bestSleepRec a b (s :: rest) = none := by
            simp [bestSleepRec, hm, hs]
          rw [hrec]
      | some t =>
        have hpos := bestSleepRec_pos a b rest t hm
        by_cases ht : overlapOf a b t > overlapOf a b s
        · have hrec : bestSleepRec a b (s :: rest) = some t := by
            simp [bestSleepRec, hm, ht]
          rw [hrec]
        · by_cases hs : overlapOf a b s > 0
          · have hrec : bestSleepRec a b (s :: rest) = some s := by
              simp [bestSleepRec, hm, ht, hs]
            rw [hrec]
            show (if overlapOf a b t > overlapOf a b c then (some t, overlapOf a b t)
                else (some c, overlapOf a b c))
              = if overlapOf a b s > overlapOf a b c then (some s, overlapOf a b s)
                else (some c, overlapOf a b c)
            rw [if_neg (show ¬ overlapOf a b t > overlapOf a b c by omega),
              if_neg (show ¬ overlapOf a b s > overlapOf a b c by omega)]
          · omega

theorem foldl_stepBS_none (a b : Int) (l : List SleepSession) :
    l.foldl (stepBS a b) (none, 0)
      = match bestSleepRec a b l with
        | none => (none, 0)
        | some t => (some t, overlapOf a b t) := by
  induction l with
  | nil => rfl
  | cons s rest ih =>
    rw [List.foldl_cons]
    show rest.foldl (stepBS a b)
        (if overlapOf a b s > 0 then (some s, overlapOf a b s) else (none, 0)) = _
    by_cases hs : overlapOf a b s > 0
    · rw [if_pos hs, foldl_stepBS_some a b rest s]
      cases hm : bestSleepRec a b rest with
      | none =>
        have hrec : bestSleepRec a b (s :: rest) = some s := by
          simp [bestSleepRec, hm, hs]
        rw [hrec]
      | some t =>
        by_cases ht : overlapOf a b t > overlapOf a b s
        · have hrec : bestSleepRec a b (s :: rest) = some t := by
            simp [bestSleepRec, hm, ht]
          rw [hrec]
          show (if overlapOf a b t > overlapOf a b s then (some t, overlapOf a b t)
              else (some s, overlapOf a b s)) = (some t, overlapOf a b t)
          rw [if_pos ht]
        · have hrec : bestSleepRec a b (s :: rest) = some s := by
            simp [bestSleepRec, hm, ht, hs]
          rw [hrec]
          show (if overlapOf a b t > overlapOf a b s then (some t, overlapOf a b t)
              else (some s, overlapOf a b s)) = (some s, overlapOf a b s)
          rw [if_neg ht]
    · rw [if_neg hs, ih]
      cases hm : bestSleepRec a b rest with
      | none =>
        have hrec : bestSleepRec a b (s :: rest) = none := by
          simp [bestSleepRec, hm, hs]
        rw [hrec]
      | some t =>
        have hpos := bestSleepRec_pos a b rest t hm
        have ht : overlapOf a b t > overlapOf a b s := by omega
        have hrec : bestSleepRec a b (s :: rest) = some t := by
          simp [bestSleepRec, hm, ht]
        rw [hrec]

theorem bestSleep_eq_rec (a b : Int) (l : List SleepSession) :
    bestSleep a b l = bestSleepRec a b l := by
  rw [bestSleep, bestSleepFold, foldl_stepBS_none]
  cases hm : bestSleepRec a b l with
  | none => rfl
  | some t => rfl

/-- C4: the session used for the snapshot is one maximizing overlap with
the day window; a zero-overlap session is never selected (the selected
session always has positive overlap, so whenever any positive-overlap
session exists one is selected and a zero-overlap one never is); and
among sessions of equal maximal overlap the first in the list wins,
because only strictly greater overlap replaces the current best. -/
theorem sleep_overlap_selection (a b : Int) (l : List SleepSession) :
    bestSleep a b l = bestSleepRec a b l ∧
    (∀ s, bestSleep a b l = some s →
      s ∈ l ∧ 0 < overlapOf a b s ∧
      (∀ x ∈ l, overlapOf a b x ≤ overlapOf a b s) ∧
      l.find? (fun x => overlapOf a b x == overlapOf a b s) = some s) ∧
    ((∃ x ∈ l, 0 < overlapOf a b x) → ∃ s, bestSleep a b l = some s) := by
  refine ⟨bestSleep_eq_rec a b l, ?_, ?_⟩
  · intro s hs
    rw [bestSleep_eq_rec] at hs
    exact ⟨bestSleepRec_mem a b l s hs, bestSleepRec_pos a b l s hs,
      bestSleepRec_max a b l s hs, bestSleepRec_first a b l s hs⟩
  · rintro ⟨x, hx, hpos⟩
    rw [bestSleep_eq_rec]
    cases hm : bestSleepRec a b l with
    | none => exact absurd (bestSleepRec_none a b l hm x hx) (by omega)
    | some t => exact ⟨t, rfl⟩

/-- A session entirely outside the window. -/
def sessOutside : SleepSession := ⟨200, 300, none⟩

/-- A session overlapping the window for 50 seconds. -/
def sessHalfA : SleepSession := ⟨0, 50, none⟩

/-- A second session also overlapping for 50 seconds. -/
def sessHalfB : SleepSession := ⟨25, 75, none⟩

/-- C4 witness: the selection theorem instantiated on a concrete session
list with window 0..100, where the zero-overlap session is skipped and
the first of the two 50-second-overlap sessions wins. -/
theorem sleep_overlap_selection_witness :
    bestSleep 0 100 [sessOutside, sessHalfA, sessHalfB] = some sessHalfA ∧
    sessHalfA ∈ [sessOutside, sessHalfA, sessHalfB] ∧
    0 < overlapOf 0 100 sessHalfA ∧
    (∀ x ∈ [sessOutside, sessHalfA, sessHalfB],
      overlapOf 0 100 x ≤ overlapOf 0 100 sessHalfA) := by
  have hb : bestSleep 0 100 [sessOutside, sessHalfA, sessHalfB] = some sessHalfA := by
    rw [(sleep_overlap_selection 0 100 [sessOutside, sessHalfA, sessHalfB]).1]
    simp [bestSleepRec, overlapOf, sessOutside, sessHalfA, sessHalfB]
  have h := (sleep_overlap_selection 0 100 [sessOutside, sessHalfA, sessHalfB]).2.1
    sessHalfA hb
  exact ⟨hb, h.1, h.2.1, h.2.2.1⟩

/-- JavaScript `a || b` over nullable numbers: yields `a` when truthy,
otherwise `b` (even when `b` is falsy). -/
def jsOrQ (a b : Option ℚ) : Option ℚ := if jsTruthy a then a else b

/-- A data point of the daily response: a measurement point or one of
the two sleep points. -/
inductive RespDataPoint
  | meas (d : MeasDataPoint)
  | sleepScore (value : ℚ) (ts : Int)
  | sleepDuration (minutes : Int) (ts : Int) (rawSeconds : ℚ)
deriving DecidableEq

/-- Applies the selected best sleep session to the snapshot: sets
`sleep_score` when the session carries one, and `sleep_duration_minutes`
from `total_sleep_time` falling back to `total_timeinbed` under
JavaScript truthiness, rounding seconds to minutes. -/
def sleepApply (best : Option SleepSession) (snap : Snapshot) :
    Snapshot × List RespDataPoint :=
  match best with
  | none => (snap, [])
  | some s =>
    let score := s.data.bind SleepData.sleep_score
    let snap1 : Snapshot :=
      match score with
      | some v => { snap with sleep_score := some v }
      | none => snap
    let dps1 : List RespDataPoint :=
      match score with
      | some v => [RespDataPoint.sleepScore v s.startdate]
      | none => []
    let durationSeconds := jsOrQ (s.data.bind SleepData.total_sleep_time)
      (s.data.bind SleepData.total_timeinbed)
    if jsTruthy durationSeconds then
      let sec := durationSeconds.getD 0
      let minutes : Int := round (sec / 60)
      ({ snap1 with sleep_duration_minutes := some (minutes : ℚ) },
        dps1 ++ [RespDataPoint.sleepDuration minutes s.startdate sec])
    else (snap1, dps1)

/-- A provider API response: integer status (0 means success) and an
optional body. -/
structure ApiRes (β : Type) where
  status : Int
  body : Option β
deriving DecidableEq

/-- Body of the measurement response. -/
structure MeasureBody where
  measuregrps : List MeasureGroup
deriving DecidableEq

/-- Body of the sleep summary response. -/
structure SleepBody where
  series : List SleepSession
deriving DecidableEq

/-- The structured verdict returned by the Progress Analyzer. -/
structure Analysis where
  summary : String
  impact_assessment : String
  confidence : String
deriving DecidableEq

/-- The 200 payload of `/health/daily`: date, window bounds, data points,
snapshot, and the optional debug-only agent fields. -/
structure DailyOk where
  date : String
  start_ts : Int
  end_ts : Int
  data_points : List RespDataPoint
  snapshot : Snapshot
  agent_trigger : Option Changes
  agent_analysis : Option Analysis
deriving DecidableEq

/-- The possible `/health/daily` outcomes. -/
inductive DailyResponse
  | badRequest
  | unauthorized
  | upstream
  | ok (r : DailyOk)
deriving DecidableEq

/-- True exactly on a 200 response. -/
def DailyResponse.isOk : DailyResponse → Bool
  | .ok _ => true
  | _ => false

/-- The agent-trigger block of `/health/daily`, wrapped in try/catch in
the source: a store failure reading the prior entry or an analyzer
failure is swallowed; in debug mode the `changes` object is attached when
a prior entry exists and the trigger fires, and the analysis is attached
when it succeeds. -/
def agentPhase (debug : Bool) (prior : Except String (Option Snapshot))
    (analyzer : Except String Analysis) (snap : Snapshot) :
    Option Changes × Option Analysis :=
  match prior with
  | .error _ => (none, none)
  | .ok p =>
    match p with
    | none =>
      match analyzer with
      | .error _ => (none, none)
      | .ok a => (none, if debug then some a else none)
    | some last =>
      let trig := shouldTriggerAgent (some last) snap
      let trigField : Option Changes :=
        if debug && trig then some (changesOf snap last) else none
      if trig then
        match analyzer with
        | .error _ => (trigField, none)
        | .ok a => (trigField, if debug then some a else none)
      else (trigField, none)

/-- `measureRes.body && measureRes.body.measuregrps` guard. -/
def grpsOfMeasure (r : ApiRes MeasureBody) : List MeasureGroup :=
  match r.body with
  | some b => b.measuregrps
  | none => []

/-- `sleepRes.body && sleepRes.body.series` guard. -/
def seriesOfSleep (r : ApiRes SleepBody) : List SleepSession :=
  match r.body with
  | some b => b.series
  | none => []

/-- The rest of the `/health/daily` handler once the measurement groups
are fixed: sleep fetch (tolerated on error or non-zero status), snapshot
assembly, agent-trigger block, then the 200 response. -/
def healthDailyCore (dateStr : String) (startTs endTs : Int) (debug : Bool)
    (grps : List MeasureGroup)
    (sleep : Except String (ApiRes SleepBody))
    (prior : Except String (Option Snapshot))
    (analyzer : Except String Analysis) : DailyResponse :=
  let snap0 := measSnapshot grps
  let dps0 := (measDataPoints grps).map RespDataPoint.meas
  let best : Option SleepSession :=
    match sleep with
    | .error _ => none
    | .ok r =>
      if r.status ≠ 0 then none
      else
        let series := seriesOfSleep r
        if series.isEmpty then none else bestSleep startTs endTs series
  let sd := sleepApply best snap0
  let ta := agentPhase debug prior analyzer sd.1
  DailyResponse.ok ⟨dateStr, startTs, endTs, dps0 ++ sd.2, sd.1, ta.1, ta.2⟩

/-- The full `/health/daily` handler over oracles: date validation,
token acquisition, the measurement fetch (non-zero provider status gives
502 inside the try block; a thrown network error is caught and execution
continues with empty measurement groups), then the shared rest. -/
def healthDaily (dateValid : Bool) (dateStr : String) (startTs endTs : Int)
    (debug : Bool) (token : Except String String)
    (measure : Except String (ApiRes MeasureBody))
    (sleep : Except String (ApiRes SleepBody))
    (prior : Except String (Option Snapshot))
    (analyzer : Except String Analysis) : DailyResponse :=
  if ¬ dateValid then DailyResponse.badRequest
  else
    match token with
    | .error _ => DailyResponse.unauthorized
    | .ok _ =>
      match measure with
      | .ok r =>
        if r.status ≠ 0 then DailyResponse.upstream
        else healthDailyCore dateStr startTs endTs debug (grpsOfMeasure r) sleep prior analyzer
      | .error _ => healthDailyCore dateStr startTs endTs debug [] sleep prior analyzer

/-- The handler outcome when the measurement fetch throws a network
error on a valid, authenticated request. -/
def dailyNetFail : DailyResponse :=
  healthDaily true "2025-01-01" 0 86400 false (Except.ok "token")
    (Except.error "econnreset") (Except.ok ⟨0, some ⟨[]⟩⟩) (Except.ok none)
    (Except.ok ⟨"", "", ""⟩)

/-- C6 counterexample: a network failure on the measurement fetch is
caught by the handler's try/catch and the request succeeds with a 200
and an empty snapshot — it does NOT produce the 502 the claim asserts
for network failures. -/
theorem upstream_network_failure_counterexample :
    dailyNetFail.isOk = true ∧ dailyNetFail ≠ DailyResponse.upstream := by
  constructor
  · rfl
  · intro h
    have h1 : dailyNetFail.isOk = true := rfl
    rw [h] at h1
    exact absurd h1 (by simp [DailyResponse.isOk])

/-- C6 (amended): on a valid authenticated request, a provider non-zero
status on the measurement fetch gives 502; a NETWORK failure on the
measurement fetch is tolerated (caught, continuing with empty
measurements to a 200); and a sleep-fetch failure of either kind never
blocks the snapshot (both clauses hold for every sleep oracle outcome,
including errors and non-zero statuses). -/
theorem upstream_measure_502 (dateStr : String) (startTs endTs : Int)
    (debug : Bool) (tok : String) (r : ApiRes MeasureBody)
    (sleep : Except String (ApiRes SleepBody))
    (prior : Except String (Option Snapshot))
    (analyzer : Except String Analysis) :
    (r.status ≠ 0 →
      healthDaily true dateStr startTs endTs debug (Except.ok tok) (Except.ok r)
        sleep prior analyzer = DailyResponse.upstream) ∧
    (r.status = 0 →
      (healthDaily true dateStr startTs endTs debug (Except.ok tok) (Except.ok r)
        sleep prior analyzer).isOk = true) ∧
    (∀ e, (healthDaily true dateStr startTs endTs debug (Except.ok tok)
        (Except.error e) sleep prior analyzer).isOk = true) := by
  refine ⟨?_, ?_, ?_⟩
  · intro h
    simp [healthDaily, h]
  · intro h
    simp [healthDaily, h, healthDailyCore, DailyResponse.isOk]
  · intro e
    simp [healthDaily, healthDailyCore, DailyResponse.isOk]

/-- C6 witness: a non-zero provider status on a valid authenticated
request yields the 502 outcome. -/
theorem upstream_measure_502_witness :
    healthDaily true "2025-01-01" 0 86400 false (Except.ok "token")
      (Except.ok ⟨503, none⟩) (Except.ok ⟨0, some ⟨[]⟩⟩) (Except.ok none)
      (Except.ok ⟨"", "", ""⟩) = DailyResponse.upstream := by
  exact (upstream_measure_502 "2025-01-01" 0 86400 false "token" ⟨503, none⟩
    (Except.ok ⟨0, some ⟨[]⟩⟩) (Except.ok none) (Except.ok ⟨"", "", ""⟩)).1
    (by norm_num)

/-- Whether `pat` is a prefix of the character list. -/
def listStartsWith : List Char → List Char → Bool
  | [], _ => true
  | _ :: _, [] => false
  | a :: as, b :: bs => a == b && listStartsWith as bs

/-- Whether `pat` occurs as a contiguous substring of the character
list, as an unanchored regular-expression test does. -/
def listHasSub (pat : List Char) : List Char → Bool
  | [] => listStartsWith pat []
  | c :: rest => listStartsWith pat (c :: rest) || listHasSub pat rest

/-- The consent check of `/agent/chat`: the raw user message is tested
once, before the loop, for any of the three fixed Hebrew consent
tokens. -/
def hasConsentMsg (m : String) : Bool :=
  listHasSub "מאשר".data m.data || listHasSub "תעדכן".data m.data ||
    listHasSub "בצע".data m.data

/-- The keyword classification of the chat message into an entry type
for the end-of-turn analysis. -/
def chatEntryType (m : String) : String :=
  if listHasSub "אכלתי".data m.data || listHasSub "אוכל".data m.data ||
      listHasSub "תזונה".data m.data || listHasSub "ארוחה".data m.data ||
      listHasSub "סנדוויץ".data m.data || listHasSub "פחמימות".data m.data ||
      listHasSub "חלבון".data m.data then "adherence"
  else if listHasSub "אימון".data m.data || listHasSub "התאמן".data m.data ||
      listHasSub "כוח".data m.data || listHasSub "קרדיו".data m.data ||
      listHasSub "שרירים".data m.data then "adherence"
  else if listHasSub "מתחיל".data m.data || listHasSub "אתחיל".data m.data ||
      listHasSub "אשנה".data m.data || listHasSub "אפסיק".data m.data then "intervention"
  else "insight"

/-- A consent object persisted with a decision entry. -/
structure ConsentObj where
  status : String
  granted_at : String
  scope : Option String
deriving DecidableEq

/-- A progress-store row as written by the chat turn's inserts. -/
structure Row where
  entry_type : String
  entry_date : String
  source : String
  title : String
  notes : Option String
  consent : Option ConsentObj
  entry_ts : String
deriving DecidableEq

/-- The incoming-message event row inserted at the start of every chat
turn, before the first engine call. -/
def incomingEventRow (message today now : String) : Row :=
  ⟨"event", today, "manual", "User message", some message, none, now⟩

/-- Arguments of the `create_agent_event` tool. -/
structure EventArgs where
  entry_date : String
  title : String
  notes : Option String
deriving DecidableEq

/-- Arguments of the `commit_agent_decision` tool, including the
engine-supplied consent fields. -/
structure CommitArgs where
  entry_date : String
  title : String
  consentStatus : String
  consentGrantedAt : String
  consentScope : Option String
deriving DecidableEq

/-- A tool call requested by the engine. -/
inductive ToolCall
  | getState
  | createEvent (a : EventArgs)
  | commitDecision (a : CommitArgs)
deriving DecidableEq

/-- The function name of a tool call. -/
def callName : ToolCall → String
  | .getState => "get_agent_state"
  | .createEvent _ => "create_agent_event"
  | .commitDecision _ => "commit_agent_decision"

/-- The result object handed back to the engine for one dispatch. -/
inductive ToolResult
  | stateRows
  | saved
  | consentError
  | committedRes
  | commitFailed
  | eventFailed
deriving DecidableEq

/-- The row inserted by the `/agent/event` endpoint for an event tool
call. -/
def eventRowOf (a : EventArgs) (now : String) : Row :=
  ⟨"event", a.entry_date, "agent", a.title, a.notes, none, now⟩

/-- The commit payload built by the chat handler for a consented
decision: entry type decision, source agent, consent status granted, a
SERVER-stamped granted_at, and only the scope taken from the
engine-supplied consent object. -/
def commitRow (a : CommitArgs) (now : String) : Row :=
  ⟨"decision", a.entry_date, "agent", a.title, none,
    some ⟨"granted", now, a.consentScope⟩, now⟩

/-- One tool dispatch: the result returned to the engine and the rows it
persists. `ok` is the store-success oracle for this dispatch. A
`commit_agent_decision` call in a turn without consent is answered with
the consent error result and persists nothing. -/
def dispatchTool (hc : Bool) (now : String) (ok : Bool) :
    ToolCall → ToolResult × List Row
  | .getState => (ToolResult.stateRows, [])
  | .createEvent a =>
    if ok then (ToolResult.saved, [eventRowOf a now]) else (ToolResult.eventFailed, [])
  | .commitDecision a =>
    if hc then
      if ok then (ToolResult.committedRes, [commitRow a now])
      else (ToolResult.commitFailed, [])
    else (ToolResult.consentError, [])

/-- A record of one dispatched tool call. -/
structure Dispatch where
  fn : String
  result : ToolResult
deriving DecidableEq

/-- An observable side effect of the turn, in order. -/
inductive Effect
  | insertRow (r : Row)
  | engineCall (k : Nat)
deriving DecidableEq

/-- True exactly on an insert effect. -/
def isInsertEffect : Effect → Bool
  | .insertRow _ => true
  | _ => false

/-- One engine message: requested tool calls and optional text. -/
structure EngineMsg where
  tool_calls : List ToolCall
  content : Option String
deriving DecidableEq

/-- The mutable turn state threaded through the loop. -/
structure ChatState where
  committed : Bool
  trace : List String
  dispatches : List Dispatch
  inserts : List Row
  effects : List Effect
  ctr : Nat
deriving DecidableEq

/-- Applies one dispatched tool call's result to the turn state; the
`committed` flag becomes true only when the dispatch result is the
committed status. -/
def applyCall (hc : Bool) (now : String) (ok : Bool) (st : ChatState)
    (c : ToolCall) : ChatState :=
  { committed := st.committed || ((dispatchTool hc now ok c).1 == ToolResult.committedRes),
    trace := st.trace ++ [callName c],
    dispatches := st.dispatches ++ [⟨callName c, (dispatchTool hc now ok c).1⟩],
    inserts := st.inserts ++ (dispatchTool hc now ok c).2,
    effects := st.effects ++ ((dispatchTool hc now ok c).2).map Effect.insertRow,
    ctr := st.ctr + 1 }

/-- Dispatches all tool calls of one engine message in order. -/
def processCalls (hc : Bool) (now : String) (storeOk : Nat → Bool) :
    ChatState → List ToolCall → ChatState
  | st, [] => st
  | st, c :: cs =>
    processCalls hc now storeOk (applyCall hc now (storeOk st.ctr) st c) cs

/-- The fixed iteration cap of the chat tool loop. -/
def MAX_ITERATIONS : Nat := 5

/-- The chat tool loop: while the current engine message requests tools
and the iteration count is below the cap, dispatch the calls and ask the
engine again. `fuel` equals the remaining iterations
(`MAX_ITERATIONS - iter` at every call). Returns the final engine
message, the final state, and the iteration count. -/
def chatLoop (hc : Bool) (now : String) (storeOk : Nat → Bool)
    (engine : Nat → EngineMsg) :
    Nat → Nat → EngineMsg → ChatState → EngineMsg × ChatState × Nat
  | 0, iter, msg, st => (msg, st, iter)
  | fuel + 1, iter, msg, st =>
    if msg.tool_calls.isEmpty then (msg, st, iter)
    else
      chatLoop hc now storeOk engine fuel (iter + 1) (engine iter)
        ⟨(processCalls hc now storeOk st msg.tool_calls).committed,
          (processCalls hc now storeOk st msg.tool_calls).trace,
          (processCalls hc now storeOk st msg.tool_calls).dispatches,
          (processCalls hc now storeOk st msg.tool_calls).inserts,
          (processCalls hc now storeOk st msg.tool_calls).effects ++
            [Effect.engineCall (iter + 1)],
          (processCalls hc now storeOk st msg.tool_calls).ctr⟩

/-- The `/agent/chat` outcomes. -/
inductive ChatResponse
  | badRequest
  | configError
  | serverError (details : String)
  | ok (reply : String) (committed : Bool) (tool_trace : List String)
deriving DecidableEq

/-- Everything observable about one chat turn. -/
structure TurnOut where
  response : ChatResponse
  effects : List Effect
  dispatches : List Dispatch
  loopInserts : List Row
  iterations : Nat
  finalMsg : EngineMsg
deriving DecidableEq

/-- The initial turn state: the incoming-message event row already
inserted, then the initial engine call. -/
def initChatState (message today now : String) : ChatState :=
  ⟨false, [], [], [incomingEventRow message today now],
    [Effect.insertRow (incomingEventRow message today now), Effect.engineCall 0], 0⟩

/-- The main branch of a `/agent/chat` turn (non-empty message, engine
credential present): consent computed once from the raw message, the
bounded loop, then the mandatory analysis whose failure propagates. -/
def runChatTurnMain (message today now : String) (engine0 : EngineMsg)
    (engine : Nat → EngineMsg) (storeOk : Nat → Bool)
    (analyzer : Except String Row) : TurnOut :=
  let res := chatLoop (hasConsentMsg message) now storeOk engine MAX_ITERATIONS 0
    engine0 (initChatState message today now)
  match analyzer with
  | .error e =>
    ⟨ChatResponse.serverError e, res.2.1.effects, res.2.1.dispatches,
      res.2.1.inserts, res.2.2, res.1⟩
  | .ok row =>
    ⟨ChatResponse.ok (res.1.content.getD "No response generated")
        res.2.1.committed res.2.1.trace,
      res.2.1.effects ++ [Effect.insertRow row], res.2.1.dispatches,
      res.2.1.inserts, res.2.2, res.1⟩

/-- One `/agent/chat` turn over oracles: empty message gives 400,
missing engine credential 500; otherwise the main branch runs. -/
def runChatTurn (message : String) (keySet : Bool) (today now : String)
    (engine0 : EngineMsg) (engine : Nat → EngineMsg) (storeOk : Nat → Bool)
    (analyzer : Except String Row) : TurnOut :=
  if message = "" then ⟨ChatResponse.badRequest, [], [], [], 0, ⟨[], none⟩⟩
  else if ¬ keySet then ⟨ChatResponse.configError, [], [], [], 0, ⟨[], none⟩⟩
  else runChatTurnMain message today now engine0 engine storeOk analyzer

/-- Invariant of a turn whose message lacks consent tokens: nothing has
committed, every commit dispatch so far was answered with the consent
error, and no decision row was persisted. -/
def NoCommitState (st : ChatState) : Prop :=
  st.committed = false ∧
  (∀ d ∈ st.dispatches, d.fn = "commit_agent_decision" →
    d.result = ToolResult.consentError) ∧
  (∀ r ∈ st.inserts, r.entry_type ≠ "decision")

theorem dispatchTool_noConsent (now : String) (ok : Bool) (c : ToolCall) :
    (dispatchTool false now ok c).1 ≠ ToolResult.committedRes ∧
    (callName c = "commit_agent_decision" →
      (dispatchTool false now ok c).1 = ToolResult.consentError) ∧
    (∀ r ∈ (dispatchTool false now ok c).2, r.entry_type ≠ "decision") := by
  cases c with
  | getState =>
    refine ⟨by simp [dispatchTool], by simp [callName], by simp [dispatchTool]⟩
  | createEvent a =>
    by_cases hok : ok
    · refine ⟨by simp [dispatchTool, hok], by simp [callName], ?_⟩
      intro r hr
      simp [dispatchTool, hok] at hr
      rw [hr]
      simp [eventRowOf]
    · exact ⟨by simp [dispatchTool, hok], by simp [callName],
        by simp [dispatchTool, hok]⟩
  | commitDecision a =>
    exact ⟨by simp [dispatchTool], by simp [dispatchTool], by simp [dispatchTool]⟩

theorem applyCall_noCommit (now : String) (ok : Bool) (st : ChatState)
    (c : ToolCall) (h : NoCommitState st) :
    NoCommitState (applyCall false now ok st c) := by
  obtain ⟨h1, h2, h3⟩ := h
  obtain ⟨g1, g2, g3⟩ := dispatchTool_noConsent now ok c
  refine ⟨?_, ?_, ?_⟩
  · show (st.committed || ((dispatchTool false now ok c).1 == ToolResult.committedRes)) = false
    rw [h1, Bool.false_or, beq_eq_false_iff_ne]
    exact g1
  · intro d hd
    rcases List.mem_append.mp hd with hd | hd
    · exact h2 d hd
    · have hd' : d = ⟨callName c, (dispatchTool false now ok c).1⟩ := by
        simpa using hd
      subst hd'
      intro hfn
      exact g2 hfn
  · intro r hr
    rcases List.mem_append.mp hr with hr | hr
    · exact h3 r hr
    · exact g3 r hr

theorem processCalls_noCommit (now : String) (storeOk : Nat → Bool)
    (calls : List ToolCall) :
    ∀ st : ChatState, NoCommitState st →
      NoCommitState (processCalls false now storeOk st calls) := by
  induction calls with
  | nil => intro st h; exact h
  | cons c cs ih =>
    intro st h
    exact ih _ (applyCall_noCommit now (storeOk st.ctr) st c h)

theorem chatLoop_noCommit (now : String) (storeOk : Nat → Bool)
    (engine : Nat → EngineMsg) :
    ∀ (fuel iter : Nat) (msg : EngineMsg) (st : ChatState), NoCommitState st →
      NoCommitState (chatLoop false now storeOk engine fuel iter msg st).2.1 := by
  intro fuel
  induction fuel with
  | zero => intro iter msg st h; exact h
  | succ fuel ih =>
    intro iter msg st h
    show NoCommitState
      (if msg.tool_calls.isEmpty then (msg, st, iter)
       else chatLoop false now storeOk engine fuel (iter + 1) (engine iter)
        { processCalls false now storeOk st msg.tool_calls with
          effects := (processCalls false now storeOk st msg.tool_calls).effects ++
            [Effect.engineCall (iter + 1)] }).2.1
    by_cases he : msg.tool_calls.isEmpty
    · rw [if_pos he]
      exact h
    · rw [if_neg he]
      apply ih
      have hp := processCalls_noCommit now storeOk msg.tool_calls st h
      exact ⟨hp.1, hp.2.1, hp.2.2⟩

/-- C2: in a turn whose raw message lacks all consent tokens, the
per-turn consent boolean is false; no matter what the engine does in any
iteration, every `commit_agent_decision` dispatch is answered with the
consent-error result, no decision row is persisted by the loop, and a
successful turn always reports `committed = false`. -/
theorem consent_gate (message : String) (keySet : Bool) (today now : String)
    (engine0 : EngineMsg) (engine : Nat → EngineMsg) (storeOk : Nat → Bool)
    (analyzer : Except String Row)
    (h : hasConsentMsg message = false) :
    (∀ d ∈ (runChatTurn message keySet today now engine0 engine storeOk analyzer).dispatches,
      d.fn = "commit_agent_decision" → d.result = ToolResult.consentError) ∧
    (∀ reply committed tr,
      (runChatTurn message keySet today now engine0 engine storeOk analyzer).response
        = ChatResponse.ok reply committed tr → committed = false) ∧
    (∀ r ∈ (runChatTurn message keySet today now engine0 engine storeOk analyzer).loopInserts,
      r.entry_type ≠ "decision") := by
  unfold runChatTurn
  by_cases hm : message = ""
  · rw [if_pos hm]
    exact ⟨by simp, by simp, by simp⟩
  · rw [if_neg hm]
    by_cases hk : keySet
    · rw [if_neg (by simpa using hk)]
      have hinv0 : NoCommitState (initChatState message today now) := by
        refine ⟨rfl, by simp [initChatState], ?_⟩
        intro r hr
        have hr' : r = incomingEventRow message today now := by
          simpa [initChatState] using hr
        rw [hr']
        simp [incomingEventRow]
      have hloop := chatLoop_noCommit now storeOk engine MAX_ITERATIONS 0 engine0
        (initChatState message today now) hinv0
      rw [← h] at hloop
      unfold runChatTurnMain
      cases analyzer with
      | error e =>
        refine ⟨?_, by simp, ?_⟩
        · intro d hd
          exact hloop.2.1 d hd
        · intro r hr
          exact hloop.2.2 r hr
      | ok row =>
        refine ⟨?_, ?_, ?_⟩
        · intro d hd
          exact hloop.2.1 d hd
        · intro reply committed tr hresp
          injection hresp with h1 h2 h3
          rw [← h2]
          exact hloop.1
        · intro r hr
          exact hloop.2.2 r hr
    · rw [if_pos hk]
      exact ⟨by simp, by simp, by simp⟩

/-- A concrete turn for the consent-gate witness: the engine immediately
requests a commit, the message has no consent token. -/
def commitCallW : ToolCall :=
  ToolCall.commitDecision ⟨"2025-01-01", "cut coffee", "granted", "2020-01-01", some "diet"⟩

/-- C2 witness: the consent-gate theorem applied to a concrete
consent-free message and an engine that requests a commit. -/
theorem consent_gate_witness :
    hasConsentMsg "מה שלומי" = false ∧
    (∀ d ∈ (runChatTurn "מה שלומי" true "2025-01-01" "T"
        ⟨[commitCallW], none⟩ (fun _ => ⟨[], some "done"⟩) (fun _ => true)
        (Except.ok ⟨"insight", "2025-01-01", "user", "t", none, none, "T"⟩)).dispatches,
      d.fn = "commit_agent_decision" → d.result = ToolResult.consentError) ∧
    (∀ reply committed tr,
      (runChatTurn "מה שלומי" true "2025-01-01" "T"
        ⟨[commitCallW], none⟩ (fun _ => ⟨[], some "done"⟩) (fun _ => true)
        (Except.ok ⟨"insight", "2025-01-01", "user", "t", none, none, "T"⟩)).response
        = ChatResponse.ok reply committed tr → committed = false) := by
  have h : hasConsentMsg "מה שלומי" = false := by decide
  have hg := consent_gate "מה שלומי" true "2025-01-01" "T"
    ⟨[commitCallW], none⟩ (fun _ => ⟨[], some "done"⟩) (fun _ => true)
    (Except.ok ⟨"insight", "2025-01-01", "user", "t", none, none, "T"⟩) h
  exact ⟨h, hg.1, hg.2.1⟩

theorem chatLoop_iter_bound (hc : Bool) (now : String) (storeOk : Nat → Bool)
    (engine : Nat → EngineMsg) :
    ∀ (fuel iter : Nat) (msg : EngineMsg) (st : ChatState),
      (chatLoop hc now storeOk engine fuel iter msg st).2.2 ≤ iter + fuel ∧
      ((chatLoop hc now storeOk engine fuel iter msg st).1.tool_calls = [] ∨
        (chatLoop hc now storeOk engine fuel iter msg st).2.2 = iter + fuel) := by
  intro fuel
  induction fuel with
  | zero =>
    intro iter msg st
    exact ⟨Nat.le_refl _, Or.inr rfl⟩
  | succ fuel ih =>
    intro iter msg st
    simp only [chatLoop]
    by_cases he : msg.tool_calls.isEmpty
    · rw [if_pos he]
      constructor
      · show iter ≤ iter + (fuel + 1)
        omega
      · exact Or.inl (List.isEmpty_iff.mp he)
    · rw [if_neg he]
      have hrec := ih (iter + 1) (engine iter)
        ⟨(processCalls hc now storeOk st msg.tool_calls).committed,
          (processCalls hc now storeOk st msg.tool_calls).trace,
          (processCalls hc now storeOk st msg.tool_calls).dispatches,
          (processCalls hc now storeOk st msg.tool_calls).inserts,
          (processCalls hc now storeOk st msg.tool_calls).effects ++
            [Effect.engineCall (iter + 1)],
          (processCalls hc now storeOk st msg.tool_calls).ctr⟩
      constructor
      · have h1 := hrec.1
        omega
      · rcases hrec.2 with h2 | h2
        · exact Or.inl h2
        · exact Or.inr (by omega)

/-- C5: the tool loop of a chat turn runs at most `MAX_ITERATIONS = 5`
iterations; when the final engine message still requests tool calls the
iteration count is exactly 5 (the loop was truncated); and on a
successful turn the reply is always the final engine message's text
(with the fixed fallback), never a failure caused by truncation. -/
theorem bounded_tool_loop (message : String) (keySet : Bool) (today now : String)
    (engine0 : EngineMsg) (engine : Nat → EngineMsg) (storeOk : Nat → Bool)
    (analyzer : Except String Row) :
    (runChatTurn message keySet today now engine0 engine storeOk analyzer).iterations
      ≤ MAX_ITERATIONS ∧
    ((runChatTurn message keySet today now engine0 engine storeOk analyzer).finalMsg.tool_calls = [] ∨
      (runChatTurn message keySet today now engine0 engine storeOk analyzer).iterations
        = MAX_ITERATIONS) ∧
    (∀ reply committed tr,
      (runChatTurn message keySet today now engine0 engine storeOk analyzer).response
        = ChatResponse.ok reply committed tr →
      reply = (runChatTurn message keySet today now engine0 engine storeOk
        analyzer).finalMsg.content.getD "No response generated") := by
  unfold runChatTurn
  by_cases hm : message = ""
  · rw [if_pos hm]
    exact ⟨by simp [MAX_ITERATIONS], Or.inl rfl, by simp⟩
  · rw [if_neg hm]
    by_cases hk : keySet
    · rw [if_neg (by simpa using hk)]
      have hb := chatLoop_iter_bound (hasConsentMsg message) now storeOk engine
        MAX_ITERATIONS 0 engine0 (initChatState message today now)
      unfold runChatTurnMain
      cases analyzer with
      | error e =>
        refine ⟨by simpa using hb.1, ?_, by simp⟩
        rcases hb.2 with h2 | h2
        · exact Or.inl h2
        · exact Or.inr (by simpa using h2)
      | ok row =>
        refine ⟨by simpa using hb.1, ?_, ?_⟩
        · rcases hb.2 with h2 | h2
          · exact Or.inl h2
          · exact Or.inr (by simpa using h2)
        · intro reply committed tr hresp
          injection hresp with h1 h2 h3
          rw [← h1]
    · rw [if_pos hk]
      exact ⟨by simp [MAX_ITERATIONS], Or.inl rfl, by simp⟩

/-- C5 witness: a concrete turn whose engine requests tools forever is
truncated after exactly 5 iterations and still yields a 200-style reply. -/
theorem bounded_tool_loop_witness :
    (runChatTurn "שלום" true "2025-01-01" "T" ⟨[ToolCall.getState], some "m0"⟩
      (fun _ => ⟨[ToolCall.getState], some "m"⟩) (fun _ => true)
      (Except.ok ⟨"insight", "2025-01-01", "user", "t", none, none, "T"⟩)).iterations
        ≤ MAX_ITERATIONS ∧
    (runChatTurn "שלום" true "2025-01-01" "T" ⟨[ToolCall.getState], some "m0"⟩
      (fun _ => ⟨[ToolCall.getState], some "m"⟩) (fun _ => true)
      (Except.ok ⟨"insight", "2025-01-01", "user", "t", none, none, "T"⟩)).response
      = ChatResponse.ok "m" false
          ["get_agent_state", "get_agent_state", "get_agent_state",
            "get_agent_state", "get_agent_state"] ∧
    "m" = (runChatTurn "שלום" true "2025-01-01" "T" ⟨[ToolCall.getState], some "m0"⟩
      (fun _ => ⟨[ToolCall.getState], some "m"⟩) (fun _ => true)
      (Except.ok ⟨"insight", "2025-01-01", "user", "t", none, none, "T"⟩)).finalMsg.content.getD
        "No response generated" := by
  have hb := bounded_tool_loop "שלום" true "2025-01-01" "T"
    ⟨[ToolCall.getState], some "m0"⟩ (fun _ => ⟨[ToolCall.getState], some "m"⟩)
    (fun _ => true) (Except.ok ⟨"insight", "2025-01-01", "user", "t", none, none, "T"⟩)
  have hresp : (runChatTurn "שלום" true "2025-01-01" "T" ⟨[ToolCall.getState], some "m0"⟩
      (fun _ => ⟨[ToolCall.getState], some "m"⟩) (fun _ => true)
      (Except.ok ⟨"insight", "2025-01-01", "user", "t", none, none, "T"⟩)).response
      = ChatResponse.ok "m" false
          ["get_agent_state", "get_agent_state", "get_agent_state",
            "get_agent_state", "get_agent_state"] := by decide
  exact ⟨hb.1, hresp, hb.2.2 "m" false _ hresp⟩

/-- Invariant: every decision row persisted so far carries source agent
and a consent object with status granted and the server timestamp. -/
def DecisionStamped (now : String) (st : ChatState) : Prop :=
  ∀ r ∈ st.inserts, r.entry_type = "decision" →
    r.source = "agent" ∧ ∃ sc, r.consent = some ⟨"granted", now, sc⟩

theorem dispatchTool_rows_stamped (hc : Bool) (now : String) (ok : Bool)
    (c : ToolCall) :
    ∀ r ∈ (dispatchTool hc now ok c).2, r.entry_type = "decision" →
      r.source = "agent" ∧ ∃ sc, r.consent = some ⟨"granted", now, sc⟩ := by
  cases c with
  | getState => simp [dispatchTool]
  | createEvent a =>
    by_cases hok : ok
    · intro r hr
      simp [dispatchTool, hok] at hr
      rw [hr]
      simp [eventRowOf]
    · simp [dispatchTool, hok]
  | commitDecision a =>
    by_cases hcc : hc
    · by_cases hok : ok
      · intro r hr
        simp [dispatchTool, hcc, hok] at hr
        rw [hr]
        intro _
        exact ⟨rfl, a.consentScope, rfl⟩
      · simp [dispatchTool, hcc, hok]
    · simp [dispatchTool, hcc]

theorem applyCall_stamped (hc : Bool) (now : String) (ok : Bool)
    (st : ChatState) (c : ToolCall) (h : DecisionStamped now st) :
    DecisionStamped now (applyCall hc now ok st c) := by
  intro r hr
  rcases List.mem_append.mp hr with hr | hr
  · exact h r hr
  · exact dispatchTool_rows_stamped hc now ok c r hr

theorem processCalls_stamped (hc : Bool) (now : String) (storeOk : Nat → Bool)
    (calls : List ToolCall) :
    ∀ st : ChatState, DecisionStamped now st →
      DecisionStamped now (processCalls hc now storeOk st calls) := by
  induction calls with
  | nil => intro st h; exact h
  | cons c cs ih =>
    intro st h
    exact ih _ (applyCall_stamped hc now (storeOk st.ctr) st c h)

theorem chatLoop_stamped (hc : Bool) (now : String) (storeOk : Nat → Bool)
    (engine : Nat → EngineMsg) :
    ∀ (fuel iter : Nat) (msg : EngineMsg) (st : ChatState), DecisionStamped now st →
      DecisionStamped now (chatLoop hc now storeOk engine fuel iter msg st).2.1 := by
  intro fuel
  induction fuel with
  | zero => intro iter msg st h; exact h
  | succ fuel ih =>
    intro iter msg st h
    simp only [chatLoop]
    by_cases he : msg.tool_calls.isEmpty
    · rw [if_pos he]
      exact h
    · rw [if_neg he]
      apply ih
      intro r hr
      exact processCalls_stamped hc now storeOk msg.tool_calls st h r hr

/-- C7: a consented `commit_agent_decision` dispatch persists (when the
store accepts it) exactly the server-built payload — entry type
decision, source agent, consent status granted, and a granted_at equal
to the server clock; the dispatch outcome is identical for every
engine-supplied granted_at value (the engine's timestamp is discarded);
and throughout a consent-granted turn every persisted decision row
carries the server-stamped granted consent. -/
theorem commit_consent_integrity (now : String) (a : CommitArgs) (ok : Bool)
    (message : String) (keySet : Bool) (today : String) (engine0 : EngineMsg)
    (engine : Nat → EngineMsg) (storeOk : Nat → Bool)
    (analyzer : Except String Row)
    (h : hasConsentMsg message = true) :
    (∀ r ∈ (dispatchTool true now ok (ToolCall.commitDecision a)).2,
      r.entry_type = "decision" ∧ r.source = "agent" ∧
      r.consent = some ⟨"granted", now, a.consentScope⟩ ∧ r.entry_ts = now) ∧
    (∀ g, dispatchTool true now ok (ToolCall.commitDecision
        ⟨a.entry_date, a.title, a.consentStatus, g, a.consentScope⟩)
      = dispatchTool true now ok (ToolCall.commitDecision a)) ∧
    (∀ r ∈ (runChatTurn message keySet today now engine0 engine storeOk
        analyzer).loopInserts,
      r.entry_type = "decision" →
        r.source = "agent" ∧ ∃ sc, r.consent = some ⟨"granted", now, sc⟩) := by
  refine ⟨?_, ?_, ?_⟩
  · by_cases hok : ok
    · intro r hr
      simp [dispatchTool, hok] at hr
      rw [hr]
      exact ⟨rfl, rfl, rfl, rfl⟩
    · simp [dispatchTool, hok]
  · intro g
    by_cases hok : ok <;> simp [dispatchTool, hok, commitRow]
  · unfold runChatTurn
    by_cases hm : message = ""
    · rw [if_pos hm]
      simp
    · rw [if_neg hm]
      by_cases hk : keySet
      · rw [if_neg (by simpa using hk)]
        have hinv0 : DecisionStamped now (initChatState message today now) := by
          intro r hr
          have hr' : r = incomingEventRow message today now := by
            simpa [initChatState] using hr
          rw [hr']
          simp [incomingEventRow]
        have hloop := chatLoop_stamped (hasConsentMsg message) now storeOk engine
          MAX_ITERATIONS 0 engine0 (initChatState message today now) hinv0
        unfold runChatTurnMain
        cases analyzer with
        | error e => exact fun r hr => hloop r hr
        | ok row => exact fun r hr => hloop r hr
      · rw [if_pos hk]
        simp

/-- C7 witness: the integrity theorem instantiated at a concrete
consented commit with a forged engine-supplied timestamp. -/
theorem commit_consent_integrity_witness :
    hasConsentMsg "מאשר" = true ∧
    (∀ r ∈ (dispatchTool true "NOW"
        true (ToolCall.commitDecision
          ⟨"2025-01-01", "cut coffee", "granted", "1999-01-01", some "diet"⟩)).2,
      r.entry_type = "decision" ∧ r.source = "agent" ∧
      r.consent = some ⟨"granted", "NOW", some "diet"⟩ ∧ r.entry_ts = "NOW") ∧
    dispatchTool true "NOW" true (ToolCall.commitDecision
        ⟨"2025-01-01", "cut coffee", "granted", "2077-12-31", some "diet"⟩)
      = dispatchTool true "NOW" true (ToolCall.commitDecision
        ⟨"2025-01-01", "cut coffee", "granted", "1999-01-01", some "diet"⟩) := by
  have h : hasConsentMsg "מאשר" = true := by decide
  have hg := commit_consent_integrity "NOW"
    ⟨"2025-01-01", "cut coffee", "granted", "1999-01-01", some "diet"⟩ true
    "מאשר" true "2025-01-01" ⟨[], none⟩ (fun _ => ⟨[], none⟩) (fun _ => true)
    (Except.ok ⟨"insight", "2025-01-01", "user", "t", none, none, "T"⟩) h
  exact ⟨h, hg.1, hg.2.1 "2077-12-31"⟩

theorem processCalls_effects_ext (hc : Bool) (now : String) (storeOk : Nat → Bool)
    (calls : List ToolCall) :
    ∀ st : ChatState, ∃ tail,
      (processCalls hc now storeOk st calls).effects = st.effects ++ tail := by
  induction calls with
  | nil => intro st; exact ⟨[], (List.append_nil _).symm⟩
  | cons c cs ih =>
    intro st
    obtain ⟨t, ht⟩ := ih (applyCall hc now (storeOk st.ctr) st c)
    refine ⟨((dispatchTool hc now (storeOk st.ctr) c).2).map Effect.insertRow ++ t, ?_⟩
    show (processCalls hc now storeOk (applyCall hc now (storeOk st.ctr) st c) cs).effects = _
    rw [ht]
    show (st.effects ++ ((dispatchTool hc now (storeOk st.ctr) c).2).map Effect.insertRow)
      ++ t = _
    rw [List.append_assoc]

theorem chatLoop_effects_ext (hc : Bool) (now : String) (storeOk : Nat → Bool)
    (engine : Nat → EngineMsg) :
    ∀ (fuel iter : Nat) (msg : EngineMsg) (st : ChatState), ∃ tail,
      (chatLoop hc now storeOk engine fuel iter msg st).2.1.effects
        = st.effects ++ tail := by
  intro fuel
  induction fuel with
  | zero => intro iter msg st; exact ⟨[], (List.append_nil _).symm⟩
  | succ fuel ih =>
    intro iter msg st
    simp only [chatLoop]
    by_cases he : msg.tool_calls.isEmpty
    · rw [if_pos he]
      exact ⟨[], (List.append_nil _).symm⟩
    · rw [if_neg he]
      obtain ⟨t1, h1⟩ := processCalls_effects_ext hc now storeOk msg.tool_calls st
      obtain ⟨t2, h2⟩ := ih (iter + 1) (engine iter)
        ⟨(processCalls hc now storeOk st msg.tool_calls).committed,
          (processCalls hc now storeOk st msg.tool_calls).trace,
          (processCalls hc now storeOk st msg.tool_calls).dispatches,
          (processCalls hc now storeOk st msg.tool_calls).inserts,
          (processCalls hc now storeOk st msg.tool_calls).effects ++
            [Effect.engineCall (iter + 1)],
          (processCalls hc now storeOk st msg.tool_calls).ctr⟩
    -- the intermediate state's effects reduce to the appended form
      refine ⟨(t1 ++ [Effect.engineCall (iter + 1)]) ++ t2, ?_⟩
      rw [h2]
      show ((processCalls hc now storeOk st msg.tool_calls).effects ++
        [Effect.engineCall (iter + 1)]) ++ t2 = _
      rw [h1, List.append_assoc, List.append_assoc, List.append_assoc]

/-- C10: for every chat turn with a non-empty message (and the engine
credential present), the very first side effect of the turn — before
any engine call — is the insert of the raw user message as a progress
row with entry type event, source manual, title User message, notes
equal to the message, and the server timestamp; and every successful
turn performs at least two inserts (this event plus the end-of-turn
analyzer entry). -/
theorem chat_message_logged (message today now : String) (engine0 : EngineMsg)
    (engine : Nat → EngineMsg) (storeOk : Nat → Bool)
    (analyzer : Except String Row) (h : message ≠ "") :
    (∃ rest, (runChatTurn message true today now engine0 engine storeOk
        analyzer).effects
      = Effect.insertRow ⟨"event", today, "manual", "User message",
          some message, none, now⟩ :: rest) ∧
    (∀ reply committed tr,
      (runChatTurn message true today now engine0 engine storeOk
        analyzer).response = ChatResponse.ok reply committed tr →
      2 ≤ ((runChatTurn message true today now engine0 engine storeOk
        analyzer).effects.filter isInsertEffect).length) := by
  have hrw : runChatTurn message true today now engine0 engine storeOk analyzer
      = runChatTurnMain message today now engine0 engine storeOk analyzer := by
    simp [runChatTurn, h]
  rw [hrw]
  obtain ⟨tail, htail⟩ := chatLoop_effects_ext (hasConsentMsg message) now storeOk
    engine MAX_ITERATIONS 0 engine0 (initChatState message today now)
  have hini : (initChatState message today now).effects
      = [Effect.insertRow (incomingEventRow message today now),
          Effect.engineCall 0] := rfl
  rw [hini] at htail
  unfold runChatTurnMain
  cases analyzer with
  | error e =>
    constructor
    · refine ⟨Effect.engineCall 0 :: tail, ?_⟩
      show (chatLoop (hasConsentMsg message) now storeOk engine MAX_ITERATIONS 0
        engine0 (initChatState message today now)).2.1.effects = _
      rw [htail]
      rfl
    · intro reply committed tr hresp
      exact absurd hresp (by simp)
  | ok row =>
    constructor
    · refine ⟨(Effect.engineCall 0 :: tail) ++ [Effect.insertRow row], ?_⟩
      show (chatLoop (hasConsentMsg message) now storeOk engine MAX_ITERATIONS 0
        engine0 (initChatState message today now)).2.1.effects
          ++ [Effect.insertRow row] = _
      rw [htail]
      rfl
    · intro reply committed tr hresp
      show 2 ≤ (((chatLoop (hasConsentMsg message) now storeOk engine MAX_ITERATIONS 0
        engine0 (initChatState message today now)).2.1.effects
          ++ [Effect.insertRow row]).filter isInsertEffect).length
      rw [htail]
      simp [List.filter_append, isInsertEffect]

/-- C10 witness: the logging theorem instantiated at a concrete turn. -/
theorem chat_message_logged_witness :
    (∃ rest, (runChatTurn "שלום" true "2025-01-01" "T" ⟨[], some "hi"⟩
        (fun _ => ⟨[], none⟩) (fun _ => true)
        (Except.ok ⟨"insight", "2025-01-01", "user", "t", none, none, "T"⟩)).effects
      = Effect.insertRow ⟨"event", "2025-01-01", "manual", "User message",
          some "שלום", none, "T"⟩ :: rest) ∧
    2 ≤ ((runChatTurn "שלום" true "2025-01-01" "T" ⟨[], some "hi"⟩
        (fun _ => ⟨[], none⟩) (fun _ => true)
        (Except.ok ⟨"insight", "2025-01-01", "user", "t", none, none, "T"⟩)).effects.filter
          isInsertEffect).length := by
  have hg := chat_message_logged "שלום" "2025-01-01" "T" ⟨[], some "hi"⟩
    (fun _ => ⟨[], none⟩) (fun _ => true)
    (Except.ok ⟨"insight", "2025-01-01", "user", "t", none, none, "T"⟩) (by decide)
  refine ⟨hg.1, hg.2 "hi" false [] ?_⟩
  decide

/-- C9: when the daily snapshot is successfully built, a failure of the
significant-change analysis (store read error or analyzer error) is
swallowed — the endpoint still answers 200 with the same date, window
bounds, data points and snapshot as a successful analysis run — whereas
the same analyzer failure in a chat turn propagates as the turn-level
server error. -/
theorem analyzer_failure_handling
    (dateStr : String) (startTs endTs : Int) (debug : Bool) (tok : String)
    (r : ApiRes MeasureBody) (sleep : Except String (ApiRes SleepBody))
    (prior : Except String (Option Snapshot)) (err : String) (a : Analysis)
    (message today now : String) (engine0 : EngineMsg)
    (engine : Nat → EngineMsg) (storeOk : Nat → Bool)
    (hr : r.status = 0) (hm : message ≠ "") :
    (∃ q q',
      healthDaily true dateStr startTs endTs debug (Except.ok tok) (Except.ok r)
        sleep prior (Except.error err) = DailyResponse.ok q ∧
      healthDaily true dateStr startTs endTs debug (Except.ok tok) (Except.ok r)
        sleep prior (Except.ok a) = DailyResponse.ok q' ∧
      q.date = q'.date ∧ q.start_ts = q'.start_ts ∧ q.end_ts = q'.end_ts ∧
      q.data_points = q'.data_points ∧ q.snapshot = q'.snapshot ∧
      q.date = dateStr ∧ q.start_ts = startTs ∧ q.end_ts = endTs) ∧
    (runChatTurn message true today now engine0 engine storeOk
      (Except.error err)).response = ChatResponse.serverError err := by
  constructor
  · have hcore : ∀ an, healthDaily true dateStr startTs endTs debug (Except.ok tok)
        (Except.ok r) sleep prior an
          = healthDailyCore dateStr startTs endTs debug (grpsOfMeasure r) sleep
            prior an := by
      intro an
      simp [healthDaily, hr]
    rw [hcore, hcore]
    exact ⟨_, _, rfl, rfl, rfl, rfl, rfl, rfl, rfl, rfl, rfl, rfl⟩
  · simp [runChatTurn, runChatTurnMain, hm]

/-- C9 witness: the tolerance theorem instantiated at a concrete
request whose analyzer fails. -/
theorem analyzer_failure_handling_witness :
    (∃ q, healthDaily true "2025-01-01" 0 86400 false (Except.ok "tok")
      (Except.ok ⟨0, some ⟨[]⟩⟩) (Except.ok ⟨0, some ⟨[]⟩⟩) (Except.ok none)
      (Except.error "boom") = DailyResponse.ok q) ∧
    (runChatTurn "שלום" true "2025-01-01" "T" ⟨[], some "hi"⟩
      (fun _ => ⟨[], none⟩) (fun _ => true) (Except.error "boom")).response
      = ChatResponse.serverError "boom" := by
  have hg := analyzer_failure_handling "2025-01-01" 0 86400 false "tok"
    ⟨0, some ⟨[]⟩⟩ (Except.ok ⟨0, some ⟨[]⟩⟩) (Except.ok none) "boom"
    ⟨"", "", ""⟩ "שלום" "2025-01-01" "T" ⟨[], some "hi"⟩ (fun _ => ⟨[], none⟩)
    (fun _ => true) rfl (by decide)
  obtain ⟨⟨q, q', h1, _⟩, h2⟩ := hg
  exact ⟨⟨q, h1⟩, h2⟩
